import Mathlib

/-!
Verification of the `sqlx-postgres-interval` crate: the `Interval` value type
(months, days, microseconds), its binary wire codec, its ISO 8601 text codec,
and its fallible conversions from three host duration types.

The crate's own code (src/lib.rs) is embedded directly.  The external
collaborators it delegates to (the sqlx `PgInterval` wire codec and the
`pg_interval` ISO 8601 grammar) are not part of the repository; they are
modelled from the specification's description of their contracts.
-/

set_option maxRecDepth 4096

namespace SqlxPgInterval

/-- The `Interval` struct of src/lib.rs: `months: i32, days: i32, microseconds: i64`.
Machine integers are embedded as `Int` with explicit range side conditions. -/
structure Interval where
  months : Int
  days : Int
  microseconds : Int
deriving DecidableEq, Repr

def i32min : Int := -2147483648
def i32max : Int := 2147483647
def i64min : Int := -9223372036854775808
def i64max : Int := 9223372036854775807

/-- Field ranges of the Rust struct (i32, i32, i64). -/
def Interval.inRange (x : Interval) : Prop :=
  i32min ≤ x.months ∧ x.months ≤ i32max ∧
  i32min ≤ x.days ∧ x.days ≤ i32max ∧
  i64min ≤ x.microseconds ∧ x.microseconds ≤ i64max

instance (x : Interval) : Decidable x.inRange := by
  unfold Interval.inRange; infer_instance

/-! ## Binary wire format

Modelled from the spec: the sqlx `PgInterval` binary codec is not in the
repository.  The spec fixes its contract exactly: 16 bytes,
`[microseconds: i64 big-endian][days: i32 big-endian][months: i32 big-endian]`,
no padding, no length prefix; decode reads the same fields back and fails on a
truncated or malformed payload.  Bytes are `Nat` values below 256. -/

/-- Big-endian bytes of a natural number, fixed width `w` (most significant first). -/
def natToBeBytes : Nat → Nat → List Nat
  | 0, _ => []
  | w + 1, n => natToBeBytes w (n / 256) ++ [n % 256]

/-- Two's-complement big-endian encoding of an integer into `w` bytes,
as Rust's `to_be_bytes` does for `i32`/`i64`. -/
def intToBeBytes (w : Nat) (v : Int) : List Nat :=
  natToBeBytes w (v % ((2 : Int) ^ (8 * w))).toNat

/-- Big-endian byte list read back as a natural number. -/
def beBytesToNat (bs : List Nat) : Nat :=
  bs.foldl (fun a b => 256 * a + b) 0

/-- Big-endian byte list read back as a `w`-byte two's-complement integer. -/
def beBytesToInt (w : Nat) (bs : List Nat) : Int :=
  let n := beBytesToNat bs
  if n < 2 ^ (8 * w - 1) then (n : Int) else (n : Int) - (2 : Int) ^ (8 * w)

/-- Modelled from the spec: the sqlx `PgInterval` value the crate delegates to
(fields `months: i32, days: i32, microseconds: i64`). -/
structure PgInterval where
  months : Int
  days : Int
  microseconds : Int
deriving DecidableEq, Repr

/-- Modelled from the spec: sqlx `PgInterval::encode_by_ref` appends to the
argument buffer the microseconds as 8 big-endian bytes, then the days as 4,
then the months as 4 — no padding, no length prefix. -/
def PgInterval.encode_by_ref (p : PgInterval) (buf : List Nat) : List Nat :=
  buf ++ intToBeBytes 8 p.microseconds ++ intToBeBytes 4 p.days ++ intToBeBytes 4 p.months

/-- Modelled from the spec: sqlx `PgInterval::decode` reads an i64 then two
i32s, big-endian, and fails on a truncated or malformed payload. -/
def PgInterval.decode (bs : List Nat) : Except String PgInterval :=
  if bs.length = 16 then
    .ok ⟨beBytesToInt 4 (bs.drop 12), beBytesToInt 4 ((bs.drop 8).take 4),
         beBytesToInt 8 (bs.take 8)⟩
  else .error "unexpected length of interval payload"

/-- `Encode::encode_by_ref` of src/lib.rs: copies the three fields into a
`PgInterval` and delegates to its encoder. -/
def Interval.encode_by_ref (x : Interval) (buf : List Nat) : List Nat :=
  PgInterval.encode_by_ref ⟨x.months, x.days, x.microseconds⟩ buf

/-- The bytes produced by encoding into an empty argument buffer. -/
def Interval.encode (x : Interval) : List Nat :=
  Interval.encode_by_ref x []

/-- `Encode::size_hint` of src/lib.rs: `2 * mem::size_of::<i64>()`. -/
def Interval.size_hint (_ : Interval) : Nat :=
  2 * 8

/-- `Decode::decode` of src/lib.rs: delegates to `PgInterval::decode` and
copies the three fields through unchanged. -/
def Interval.decode (bs : List Nat) : Except String Interval :=
  match PgInterval.decode bs with
  | .error e => .error e
  | .ok p => .ok ⟨p.months, p.days, p.microseconds⟩

theorem natToBeBytes_length (w n : Nat) : (natToBeBytes w n).length = w := by
  induction w generalizing n with
  | zero => rfl
  | succ w ih => simp [natToBeBytes, ih]

theorem beBytesToNat_natToBeBytes (w n : Nat) (h : n < 2 ^ (8 * w)) :
    beBytesToNat (natToBeBytes w n) = n := by
  induction w generalizing n with
  | zero =>
    simp [natToBeBytes, beBytesToNat]
    omega
  | succ w ih =>
    have hdiv : n / 256 < 2 ^ (8 * w) := by
      have h256 : (2 : Nat) ^ (8 * (w + 1)) = 2 ^ (8 * w) * 256 := by ring
      rw [h256] at h
      omega
    simp only [natToBeBytes, beBytesToNat, List.foldl_append]
    have := ih (n / 256) hdiv
    simp only [beBytesToNat] at this
    simp [this]
    omega

theorem intToBeBytes_length (w : Nat) (v : Int) : (intToBeBytes w v).length = w := by
  simp [intToBeBytes, natToBeBytes_length]

theorem beBytesToInt_intToBeBytes8 (v : Int) (h1 : i64min ≤ v) (h2 : v ≤ i64max) :
    beBytesToInt 8 (intToBeBytes 8 v) = v := by
  have hM : ((2 : Int) ^ (8 * 8)) = 18446744073709551616 := by norm_num
  have hmod : v % ((2 : Int) ^ (8 * 8)) = v % 18446744073709551616 := by rw [hM]
  have hnn : 0 ≤ v % 18446744073709551616 := Int.emod_nonneg v (by norm_num)
  have hlt : v % 18446744073709551616 < 18446744073709551616 :=
    Int.emod_lt_of_pos v (by norm_num)
  have ht : ((v % 18446744073709551616).toNat : Int) = v % 18446744073709551616 :=
    Int.toNat_of_nonneg hnn
  have htn : (v % 18446744073709551616).toNat < 2 ^ (8 * 8) := by
    have : ((2 : Nat) ^ (8 * 8) : Int) = 18446744073709551616 := by norm_num
    omega
  unfold beBytesToInt intToBeBytes
  rw [hmod, beBytesToNat_natToBeBytes 8 _ htn]
  have hpow1 : (2 : Nat) ^ (8 * 8 - 1) = 9223372036854775808 := by norm_num
  have hpow2 : (2 : Int) ^ (8 * 8) = 18446744073709551616 := hM
  rw [hpow1, hpow2]
  simp only [i64min, i64max] at h1 h2
  simp only []
  split <;> omega

theorem beBytesToInt_intToBeBytes4 (v : Int) (h1 : i32min ≤ v) (h2 : v ≤ i32max) :
    beBytesToInt 4 (intToBeBytes 4 v) = v := by
  have hM : ((2 : Int) ^ (8 * 4)) = 4294967296 := by norm_num
  have hmod : v % ((2 : Int) ^ (8 * 4)) = v % 4294967296 := by rw [hM]
  have hnn : 0 ≤ v % 4294967296 := Int.emod_nonneg v (by norm_num)
  have hlt : v % 4294967296 < 4294967296 := Int.emod_lt_of_pos v (by norm_num)
  have ht : ((v % 4294967296).toNat : Int) = v % 4294967296 := Int.toNat_of_nonneg hnn
  have htn : (v % 4294967296).toNat < 2 ^ (8 * 4) := by
    have : ((2 : Nat) ^ (8 * 4) : Int) = 4294967296 := by norm_num
    omega
  unfold beBytesToInt intToBeBytes
  rw [hmod, beBytesToNat_natToBeBytes 4 _ htn]
  have hpow1 : (2 : Nat) ^ (8 * 4 - 1) = 2147483648 := by norm_num
  have hpow2 : (2 : Int) ^ (8 * 4) = 4294967296 := hM
  rw [hpow1, hpow2]
  simp only [i32min, i32max] at h1 h2
  simp only []
  split <;> omega

theorem Interval.encode_eq (x : Interval) :
    Interval.encode x =
      intToBeBytes 8 x.microseconds ++ intToBeBytes 4 x.days ++ intToBeBytes 4 x.months := by
  simp [Interval.encode, Interval.encode_by_ref, PgInterval.encode_by_ref]

theorem PgInterval.decode_encode (x : Interval) (h : x.inRange) :
    PgInterval.decode (Interval.encode x) = .ok ⟨x.months, x.days, x.microseconds⟩ := by
  obtain ⟨h1, h2, h3, h4, h5, h6⟩ := h
  rw [Interval.encode_eq]
  have e8 := intToBeBytes_length 8 x.microseconds
  have e4d := intToBeBytes_length 4 x.days
  have e4m := intToBeBytes_length 4 x.months
  have hassoc : intToBeBytes 8 x.microseconds ++ intToBeBytes 4 x.days ++
      intToBeBytes 4 x.months =
      intToBeBytes 8 x.microseconds ++ (intToBeBytes 4 x.days ++ intToBeBytes 4 x.months) :=
    List.append_assoc _ _ _
  have hl : (intToBeBytes 8 x.microseconds ++ intToBeBytes 4 x.days ++
      intToBeBytes 4 x.months).length = 16 := by simp [intToBeBytes_length]
  have htake8 : (intToBeBytes 8 x.microseconds ++ intToBeBytes 4 x.days ++
      intToBeBytes 4 x.months).take 8 = intToBeBytes 8 x.microseconds := by
    rw [hassoc]; exact List.take_left' e8
  have hdrop8 : (intToBeBytes 8 x.microseconds ++ intToBeBytes 4 x.days ++
      intToBeBytes 4 x.months).drop 8 = intToBeBytes 4 x.days ++ intToBeBytes 4 x.months := by
    rw [hassoc]; exact List.drop_left' e8
  have hdrop12 : (intToBeBytes 8 x.microseconds ++ intToBeBytes 4 x.days ++
      intToBeBytes 4 x.months).drop 12 = intToBeBytes 4 x.months := by
    apply List.drop_left'
    simp [intToBeBytes_length]
  unfold PgInterval.decode
  rw [if_pos hl, hdrop12, hdrop8, htake8, List.take_left' e4d]
  rw [beBytesToInt_intToBeBytes8 _ h5 h6, beBytesToInt_intToBeBytes4 _ h3 h4,
      beBytesToInt_intToBeBytes4 _ h1 h2]

/-- C1: decoding the binary wire encoding of any `Interval` (fields in their
i32/i64 ranges) yields the same `Interval`, and the encoding is exactly 16
bytes long. -/
theorem wire_roundtrip (x : Interval) (h : x.inRange) :
    Interval.decode (Interval.encode x) = .ok x ∧ (Interval.encode x).length = 16 := by
  constructor
  · rw [Interval.decode, PgInterval.decode_encode x h]
  · rw [Interval.encode_eq]; simp [intToBeBytes_length]

/-- Concrete instance of C1: a negative-field interval encodes to 16 bytes and
decodes back to itself. -/
theorem wire_roundtrip_witness :
    Interval.decode (Interval.encode ⟨-14, 3, -5445000000⟩) = .ok ⟨-14, 3, -5445000000⟩ ∧
      (Interval.encode ⟨-14, 3, -5445000000⟩).length = 16 :=
  wire_roundtrip ⟨-14, 3, -5445000000⟩ (by decide)

/-- C6: the wire encoding appends, to any prior buffer contents, the
microseconds as 8 big-endian two's-complement bytes, then the days as 4, then
the months as 4 — 16 bytes with no padding or length prefix — and the declared
size hint is 16 for every interval. -/
theorem wire_format_layout (x : Interval) (buf : List Nat) :
    Interval.encode_by_ref x buf =
      buf ++ (intToBeBytes 8 x.microseconds ++ intToBeBytes 4 x.days ++
        intToBeBytes 4 x.months) ∧
    (intToBeBytes 8 x.microseconds).length = 8 ∧
    (intToBeBytes 4 x.days).length = 4 ∧
    (intToBeBytes 4 x.months).length = 4 ∧
    (Interval.encode x).length = 16 ∧
    Interval.size_hint x = 16 := by
  refine ⟨?_, intToBeBytes_length _ _, intToBeBytes_length _ _, intToBeBytes_length _ _, ?_, rfl⟩
  · simp [Interval.encode_by_ref, PgInterval.encode_by_ref]
  · rw [Interval.encode_eq]; simp [intToBeBytes_length]

/-! ## Conversions from host duration types

The three `TryFrom` impls of src/lib.rs.  The duration types themselves are
host-environment types; their accessors (`as_nanos`, `as_micros`,
`num_nanoseconds`, `num_microseconds`, `whole_nanoseconds`,
`whole_microseconds`) are embedded by their documented arithmetic meaning.
Errors are classified by the two error kinds the conversions produce. -/

instance instDecEqExcept {ε α : Type} [DecidableEq ε] [DecidableEq α] :
    DecidableEq (Except ε α) := fun a b =>
  match a, b with
  | .ok x, .ok y =>
    if h : x = y then isTrue (by rw [h])
    else isFalse (fun hc => h (Except.ok.inj hc))
  | .error x, .error y =>
    if h : x = y then isTrue (by rw [h])
    else isFalse (fun hc => h (Except.error.inj hc))
  | .ok _, .error _ => isFalse (fun hc => Except.noConfusion hc)
  | .error _, .ok _ => isFalse (fun hc => Except.noConfusion hc)

/-- The two error classes of the conversion code: the precision-loss message
and the overflow message (a failed `try_into` is the overflow class, per the
spec's error taxonomy). -/
inductive ConvError where
  | precision
  | overflow
deriving DecidableEq, Repr

/-- Rust's truncating `%` on `Int` is `Int.tmod`. -/
def rustRem (a b : Int) : Int := a.tmod b

/-- A `std::time::Duration`: unsigned seconds (u64) and a nanosecond part
below 10^9. -/
structure StdDuration where
  secs : Nat
  nanos : Nat
deriving DecidableEq, Repr

def StdDuration.wf (d : StdDuration) : Prop :=
  d.secs < 2 ^ 64 ∧ d.nanos < 1000000000

instance (d : StdDuration) : Decidable d.wf := by
  unfold StdDuration.wf; infer_instance

/-- `Duration::as_nanos`: the exact total nanosecond count (u128; never
overflows for a well-formed duration). -/
def StdDuration.as_nanos (d : StdDuration) : Nat :=
  d.secs * 1000000000 + d.nanos

/-- `Duration::as_micros`: the whole-microsecond count. -/
def StdDuration.as_micros (d : StdDuration) : Nat :=
  d.as_nanos / 1000

/-- `TryFrom<std::time::Duration> for Interval` (src/lib.rs lines 134-152):
reject a non-zero nanosecond remainder, then `as_micros().try_into()` into the
i64 microseconds field, with months and days 0. -/
def tryFromStd (d : StdDuration) : Except ConvError Interval :=
  if d.as_nanos % 1000 ≠ 0 then .error .precision
  else if (d.as_micros : Int) > i64max then .error .overflow
  else .ok ⟨0, 0, (d.as_micros : Int)⟩

/-- A `chrono::Duration`: signed seconds and a nanosecond part in [0, 10^9). -/
structure ChronoDuration where
  secs : Int
  nanos : Int
deriving DecidableEq, Repr

/-- Validity: nanos in [0, 10^9) and the whole value within chrono's
±(i64::MAX milliseconds) bound. -/
def ChronoDuration.wf (d : ChronoDuration) : Prop :=
  0 ≤ d.nanos ∧ d.nanos < 1000000000 ∧
  -9223372036854775 ≤ d.secs ∧ d.secs ≤ 9223372036854775

instance (d : ChronoDuration) : Decidable d.wf := by
  unfold ChronoDuration.wf; infer_instance

/-- The exact total nanosecond count of a `chrono::Duration`. -/
def ChronoDuration.totalNanos (d : ChronoDuration) : Int :=
  d.secs * 1000000000 + d.nanos

/-- The exact total microsecond count (floor; the nanosecond part is
non-negative). -/
def ChronoDuration.totalMicros (d : ChronoDuration) : Int :=
  d.secs * 1000000 + d.nanos / 1000

/-- `chrono::Duration::num_nanoseconds`: `None` on i64 overflow. -/
def ChronoDuration.num_nanoseconds (d : ChronoDuration) : Option Int :=
  if i64min ≤ d.totalNanos ∧ d.totalNanos ≤ i64max then some d.totalNanos else none

/-- `chrono::Duration::num_microseconds`: `None` on i64 overflow. -/
def ChronoDuration.num_microseconds (d : ChronoDuration) : Option Int :=
  if i64min ≤ d.totalMicros ∧ d.totalMicros ≤ i64max then some d.totalMicros else none

/-- `TryFrom<chrono::Duration> for Interval` (src/lib.rs lines 154-188):
`num_nanoseconds` checked for overflow first, then the precision check on the
nanosecond count, then `num_microseconds` re-derives the value, its own
overflow also surfaced. -/
def tryFromChrono (d : ChronoDuration) : Except ConvError Interval :=
  match d.num_nanoseconds with
  | none => .error .overflow
  | some nanoseconds =>
    if rustRem nanoseconds 1000 ≠ 0 then .error .precision
    else
      match d.num_microseconds with
      | none => .error .overflow
      | some microseconds => .ok ⟨0, 0, microseconds⟩

/-- A `time::Duration`: signed seconds (i64) and a nanosecond part of the same
sign with absolute value below 10^9. -/
structure TimeDuration where
  secs : Int
  nanos : Int
deriving DecidableEq, Repr

def TimeDuration.wf (d : TimeDuration) : Prop :=
  i64min ≤ d.secs ∧ d.secs ≤ i64max ∧
  -1000000000 < d.nanos ∧ d.nanos < 1000000000 ∧
  0 ≤ d.secs * d.nanos

instance (d : TimeDuration) : Decidable d.wf := by
  unfold TimeDuration.wf; infer_instance

/-- `time::Duration::whole_nanoseconds`: the exact total as i128 (never
overflows for a well-formed duration). -/
def TimeDuration.whole_nanoseconds (d : TimeDuration) : Int :=
  d.secs * 1000000000 + d.nanos

/-- `time::Duration::whole_microseconds`: the total truncated toward zero. -/
def TimeDuration.whole_microseconds (d : TimeDuration) : Int :=
  d.whole_nanoseconds.tdiv 1000

/-- `TryFrom<time::Duration> for Interval` (src/lib.rs lines 190-209): reject
a non-zero whole-nanosecond remainder, then `whole_microseconds().try_into()`
into the i64 field. -/
def tryFromTime (d : TimeDuration) : Except ConvError Interval :=
  if rustRem d.whole_nanoseconds 1000 ≠ 0 then .error .precision
  else if d.whole_microseconds < i64min ∨ d.whole_microseconds > i64max then .error .overflow
  else .ok ⟨0, 0, d.whole_microseconds⟩

/-- A valid `chrono::Duration` whose nanosecond count overflows i64 and whose
nanosecond remainder mod 1000 is non-zero is rejected with the overflow error,
not the precision error — refuting the claim that a non-zero remainder always
produces the precision error. -/
theorem chrono_precision_claim_counterexample :
    ChronoDuration.wf ⟨10000000000000, 1⟩ ∧
    rustRem (ChronoDuration.totalNanos ⟨10000000000000, 1⟩) 1000 ≠ 0 ∧
    tryFromChrono ⟨10000000000000, 1⟩ = .error .overflow ∧
    tryFromChrono ⟨10000000000000, 1⟩ ≠ .error .precision := by
  refine ⟨by decide, by decide, ?_, ?_⟩ <;> decide

/-- C3 (amended): a non-zero nanosecond remainder mod 1000 always yields the
precision error for `std::time::Duration` and `time::Duration`; for
`chrono::Duration` it yields the precision error whenever the nanosecond count
fits in i64, and the overflow error otherwise; an exact multiple of 1000 never
triggers the precision error for any of the three types. -/
theorem precision_rejection :
    (∀ d : StdDuration, d.as_nanos % 1000 ≠ 0 → tryFromStd d = .error .precision) ∧
    (∀ d : TimeDuration, rustRem d.whole_nanoseconds 1000 ≠ 0 →
      tryFromTime d = .error .precision) ∧
    (∀ d : ChronoDuration, i64min ≤ d.totalNanos → d.totalNanos ≤ i64max →
      rustRem d.totalNanos 1000 ≠ 0 → tryFromChrono d = .error .precision) ∧
    (∀ d : ChronoDuration, ¬(i64min ≤ d.totalNanos ∧ d.totalNanos ≤ i64max) →
      tryFromChrono d = .error .overflow) ∧
    (∀ d : StdDuration, d.as_nanos % 1000 = 0 → tryFromStd d ≠ .error .precision) ∧
    (∀ d : TimeDuration, rustRem d.whole_nanoseconds 1000 = 0 →
      tryFromTime d ≠ .error .precision) ∧
    (∀ d : ChronoDuration, rustRem d.totalNanos 1000 = 0 →
      tryFromChrono d ≠ .error .precision) := by
  refine ⟨?_, ?_, ?_, ?_, ?_, ?_, ?_⟩
  · intro d h
    rw [tryFromStd, if_pos h]
  · intro d h
    rw [tryFromTime, if_pos h]
  · intro d h1 h2 h
    rw [tryFromChrono]
    have hn : d.num_nanoseconds = some d.totalNanos := by
      rw [ChronoDuration.num_nanoseconds, if_pos ⟨h1, h2⟩]
    rw [hn]
    simp only [if_pos h]
  · intro d h
    rw [tryFromChrono]
    have hn : d.num_nanoseconds = none := by
      rw [ChronoDuration.num_nanoseconds, if_neg h]
    rw [hn]
  · intro d h
    rw [tryFromStd, if_neg (by omega)]
    split <;> simp
  · intro d h
    rw [tryFromTime, if_neg (by simp [h])]
    split <;> simp
  · intro d h
    rw [tryFromChrono]
    cases hn : d.num_nanoseconds with
    | none => simp
    | some ns =>
      have hns : ns = d.totalNanos := by
        rw [ChronoDuration.num_nanoseconds] at hn
        split at hn
        · exact (Option.some.inj hn).symm
        · exact Option.noConfusion hn
      have hrem : rustRem ns 1000 = 0 := by rw [hns]; exact h
      cases hm : d.num_microseconds <;> simp [hrem, hm]

/-- Concrete instances of C3 (amended): sub-microsecond remainders are
rejected as precision errors for all three types, and a remainder that is an
exact multiple of 1000 is not. -/
theorem precision_rejection_witness :
    tryFromStd ⟨0, 1500⟩ = .error .precision ∧
    tryFromTime ⟨0, 500⟩ = .error .precision ∧
    tryFromChrono ⟨0, 1500⟩ = .error .precision ∧
    tryFromStd ⟨0, 2000⟩ ≠ .error .precision :=
  ⟨precision_rejection.1 ⟨0, 1500⟩ (by decide),
   precision_rejection.2.1 ⟨0, 500⟩ (by decide),
   precision_rejection.2.2.1 ⟨0, 1500⟩ (by decide) (by decide) (by decide),
   precision_rejection.2.2.2.2.1 ⟨0, 2000⟩ (by decide)⟩

/-- A `std::time::Duration` whose microsecond count exceeds i64::MAX but whose
nanosecond count has a non-zero remainder mod 1000 fails with the precision
error, not the overflow error — refuting the claim that microsecond overflow
always produces the overflow error. -/
theorem overflow_claim_counterexample :
    StdDuration.wf ⟨1000000000000000, 1⟩ ∧
    (StdDuration.as_micros ⟨1000000000000000, 1⟩ : Int) > i64max ∧
    tryFromStd ⟨1000000000000000, 1⟩ = .error .precision ∧
    tryFromStd ⟨1000000000000000, 1⟩ ≠ .error .overflow := by
  refine ⟨by decide, by decide, ?_, ?_⟩ <;> decide

/-- C4 (amended): a source duration whose total microsecond count does not fit
in i64 and whose total nanosecond count is an exact multiple of 1000 fails
with the overflow error; for `chrono::Duration` the overflow error results
regardless of the remainder. -/
theorem overflow_rejection :
    (∀ d : StdDuration, d.as_nanos % 1000 = 0 → (d.as_micros : Int) > i64max →
      tryFromStd d = .error .overflow) ∧
    (∀ d : ChronoDuration, d.wf →
      (d.totalMicros < i64min ∨ d.totalMicros > i64max) →
      tryFromChrono d = .error .overflow) ∧
    (∀ d : TimeDuration, rustRem d.whole_nanoseconds 1000 = 0 →
      (d.whole_microseconds < i64min ∨ d.whole_microseconds > i64max) →
      tryFromTime d = .error .overflow) := by
  refine ⟨?_, ?_, ?_⟩
  · intro d h hover
    rw [tryFromStd, if_neg (by omega), if_pos hover]
  · intro d hwf hover
    obtain ⟨hn1, hn2, hs1, hs2⟩ := hwf
    have hnone : d.num_nanoseconds = none := by
      rw [ChronoDuration.num_nanoseconds, if_neg]
      rw [ChronoDuration.totalMicros] at hover
      rw [ChronoDuration.totalNanos]
      rw [i64min, i64max] at hover ⊢
      omega
    rw [tryFromChrono, hnone]
  · intro d h hover
    rw [tryFromTime, if_neg (by simp [h]), if_pos hover]

/-- Concrete instances of C4 (amended): precision-safe durations with
microsecond counts beyond i64 are rejected as overflow for all three types. -/
theorem overflow_rejection_witness :
    tryFromStd ⟨10000000000000000000, 0⟩ = .error .overflow ∧
    tryFromChrono ⟨9223372036854775, 0⟩ = .error .overflow ∧
    tryFromTime ⟨9223372036854775807, 0⟩ = .error .overflow :=
  ⟨overflow_rejection.1 ⟨10000000000000000000, 0⟩ (by decide) (by decide),
   overflow_rejection.2.1 ⟨9223372036854775, 0⟩ (by decide) (by decide),
   overflow_rejection.2.2 ⟨9223372036854775807, 0⟩ (by decide) (by decide)⟩

/-- C5: every successful conversion from any of the three duration types
yields months = 0 and days = 0, and the zero duration of each type converts
to `Interval 0 0 0`. -/
theorem conversions_zero_calendar :
    (∀ (d : StdDuration) (i : Interval), tryFromStd d = .ok i →
      i.months = 0 ∧ i.days = 0) ∧
    (∀ (d : ChronoDuration) (i : Interval), tryFromChrono d = .ok i →
      i.months = 0 ∧ i.days = 0) ∧
    (∀ (d : TimeDuration) (i : Interval), tryFromTime d = .ok i →
      i.months = 0 ∧ i.days = 0) ∧
    tryFromStd ⟨0, 0⟩ = .ok ⟨0, 0, 0⟩ ∧
    tryFromChrono ⟨0, 0⟩ = .ok ⟨0, 0, 0⟩ ∧
    tryFromTime ⟨0, 0⟩ = .ok ⟨0, 0, 0⟩ := by
  refine ⟨?_, ?_, ?_, by decide, by decide, by decide⟩
  · intro d i h
    rw [tryFromStd] at h
    split at h
    · exact Except.noConfusion h
    · split at h
      · exact Except.noConfusion h
      · cases Except.ok.inj h; exact ⟨rfl, rfl⟩
  · intro d i h
    rw [tryFromChrono] at h
    split at h
    · exact Except.noConfusion h
    · split at h
      · exact Except.noConfusion h
      · split at h
        · exact Except.noConfusion h
        · cases Except.ok.inj h; exact ⟨rfl, rfl⟩
  · intro d i h
    rw [tryFromTime] at h
    split at h
    · exact Except.noConfusion h
    · split at h
      · exact Except.noConfusion h
      · cases Except.ok.inj h; exact ⟨rfl, rfl⟩

/-- Concrete instance of C5: a successful conversion has zero calendar
fields. -/
theorem conversions_zero_calendar_witness :
    Interval.months ⟨0, 0, 1000000⟩ = 0 ∧ Interval.days ⟨0, 0, 1000000⟩ = 0 :=
  conversions_zero_calendar.1 ⟨1, 0⟩ ⟨0, 0, 1000000⟩ (by decide)

/-- C7: in the chrono conversion the nanosecond-count overflow check comes
first and is surfaced as the overflow error; a fitting nanosecond count with a
non-zero remainder gives the precision error; the value is then re-derived by
the microsecond-count query, whose own overflow is also surfaced as the
overflow error, and whose value becomes the microseconds field; in particular
a nanosecond-count overflow yields the overflow error even when the
microsecond count fits in i64. -/
theorem chrono_check_order :
    (∀ d : ChronoDuration, d.num_nanoseconds = none →
      tryFromChrono d = .error .overflow) ∧
    (∀ (d : ChronoDuration) (ns : Int), d.num_nanoseconds = some ns →
      rustRem ns 1000 ≠ 0 → tryFromChrono d = .error .precision) ∧
    (∀ (d : ChronoDuration) (ns : Int), d.num_nanoseconds = some ns →
      rustRem ns 1000 = 0 → d.num_microseconds = none →
      tryFromChrono d = .error .overflow) ∧
    (∀ (d : ChronoDuration) (ns us : Int), d.num_nanoseconds = some ns →
      rustRem ns 1000 = 0 → d.num_microseconds = some us →
      tryFromChrono d = .ok ⟨0, 0, us⟩) ∧
    (∀ d : ChronoDuration, d.num_nanoseconds = none →
      i64min ≤ d.totalMicros → d.totalMicros ≤ i64max →
      tryFromChrono d = .error .overflow) := by
  refine ⟨?_, ?_, ?_, ?_, ?_⟩
  · intro d h
    rw [tryFromChrono, h]
  · intro d ns h hrem
    rw [tryFromChrono, h]
    simp only [if_pos hrem]
  · intro d ns h hrem hm
    rw [tryFromChrono, h]
    simp [hrem, hm]
  · intro d ns us h hrem hm
    rw [tryFromChrono, h]
    simp [hrem, hm]
  · intro d h _ _
    rw [tryFromChrono, h]

/-- Concrete instances of C7: a duration whose nanosecond count overflows i64
while its microsecond count fits is rejected as overflow; remainder and
success paths behave as described. -/
theorem chrono_check_order_witness :
    tryFromChrono ⟨10000000000, 0⟩ = .error .overflow ∧
    tryFromChrono ⟨0, 1500⟩ = .error .precision ∧
    tryFromChrono ⟨1, 0⟩ = .ok ⟨0, 0, 1000000⟩ :=
  ⟨chrono_check_order.2.2.2.2 ⟨10000000000, 0⟩ (by decide) (by decide) (by decide),
   chrono_check_order.2.1 ⟨0, 1500⟩ 1500 (by decide) (by decide),
   chrono_check_order.2.2.2.1 ⟨1, 0⟩ 1000000000 1000000 (by decide) (by decide) (by decide)⟩

/-- C10: a successful conversion from `std::time::Duration` always has a
non-negative microseconds field. -/
theorem std_conversion_nonneg (d : StdDuration) (i : Interval)
    (h : tryFromStd d = .ok i) : 0 ≤ i.microseconds := by
  rw [tryFromStd] at h
  split at h
  · exact Except.noConfusion h
  · split at h
    · exact Except.noConfusion h
    · cases Except.ok.inj h
      exact Int.natCast_nonneg _

/-- Concrete instance of C10. -/
theorem std_conversion_nonneg_witness :
    0 ≤ Interval.microseconds ⟨0, 0, 1000000⟩ :=
  std_conversion_nonneg ⟨1, 0⟩ ⟨0, 0, 1000000⟩ (by decide)

/-! ## ISO 8601 text format

Modelled from the spec: the `pg_interval` crate (its `Interval` value, its
`to_iso_8601` formatter, its `from_iso` parser and its five-variant
`ParseError`) is not part of the repository.  The spec fixes the grammar
`P(n)Y(n)M(n)DT(n)H(n)M(n)S`: `P` always emitted, `T` only when the time
portion is non-empty, each component only when non-zero; months decomposed
into years+months by truncating division, microseconds into hours, minutes
and seconds with up to six fractional digits, trailing zeros trimmed, sign
carried per field; weeks accepted on parse but never emitted; the all-zero
interval prints as `P0D`.  Failures are integer-parse, fractional-parse,
invalid year-month segment, invalid time segment, and invalid overall
interval. -/

namespace pg_interval

/-- Modelled from the spec: the five failure variants of the delegated
grammar, each carrying its human-readable message. -/
inductive ParseError where
  | ParseIntErr (msg : String)
  | ParseFloatErr (msg : String)
  | InvalidYearMonth (msg : String)
  | InvalidTime (msg : String)
  | InvalidInterval (msg : String)
deriving DecidableEq, Repr

/-- Modelled from the spec: the `pg_interval::Interval` value
(months, days, microseconds). -/
structure Interval where
  months : Int
  days : Int
  microseconds : Int
deriving DecidableEq, Repr

/-- Numeric value of a decimal digit character. -/
def digitVal (c : Char) : Nat := c.toNat - 48

/-- Decimal digits of a natural number, most significant first, with explicit
fuel for structural recursion. -/
def natToDigitsGo : Nat → Nat → List Char
  | 0, _ => []
  | fuel + 1, n =>
    if n < 10 then [Nat.digitChar n]
    else natToDigitsGo fuel (n / 10) ++ [Nat.digitChar (n % 10)]

/-- Decimal digits of a natural number, most significant first. -/
def natToDigits (n : Nat) : List Char := natToDigitsGo (n + 1) n

/-- Value of a most-significant-first decimal digit string. -/
def digitsToNat (l : List Char) : Nat :=
  l.foldl (fun a c => 10 * a + digitVal c) 0

theorem digitVal_digitChar (d : Nat) (h : d < 10) :
    digitVal (Nat.digitChar d) = d ∧ (Nat.digitChar d).isDigit = true := by
  interval_cases d <;> exact ⟨by decide, by decide⟩

theorem digitsToNat_append_singleton (l : List Char) (c : Char) :
    digitsToNat (l ++ [c]) = 10 * digitsToNat l + digitVal c := by
  simp [digitsToNat, List.foldl_append]

theorem natToDigitsGo_spec (fuel : Nat) : ∀ n, n < 10 ^ fuel →
    digitsToNat (natToDigitsGo fuel n) = n ∧
    (∀ c ∈ natToDigitsGo fuel n, c.isDigit = true) ∧
    (natToDigitsGo fuel n).length ≤ fuel := by
  induction fuel with
  | zero =>
    intro n h
    simp [natToDigitsGo, digitsToNat]
    omega
  | succ fuel ih =>
    intro n h
    by_cases h10 : n < 10
    · refine ⟨?_, ?_, ?_⟩
      · simp only [natToDigitsGo, if_pos h10, digitsToNat, List.foldl]
        have := digitVal_digitChar n h10
        omega
      · intro c hc
        simp only [natToDigitsGo, if_pos h10, List.mem_singleton] at hc
        rw [hc]
        exact (digitVal_digitChar n h10).2
      · simp [natToDigitsGo, if_pos h10]
    · have hdiv : n / 10 < 10 ^ fuel := by
        have hp : (10 : Nat) ^ (fuel + 1) = 10 ^ fuel * 10 := by ring
        rw [hp] at h
        omega
      obtain ⟨ih1, ih2, ih3⟩ := ih (n / 10) hdiv
      refine ⟨?_, ?_, ?_⟩
      · simp only [natToDigitsGo, if_neg h10]
        rw [digitsToNat_append_singleton, ih1]
        have := digitVal_digitChar (n % 10) (by omega)
        omega
      · intro c hc
        simp only [natToDigitsGo, if_neg h10, List.mem_append, List.mem_singleton] at hc
        rcases hc with hc | hc
        · exact ih2 c hc
        · rw [hc]
          exact (digitVal_digitChar (n % 10) (by omega)).2
      · simp only [natToDigitsGo, if_neg h10]
        simp
        omega

theorem digitsToNat_natToDigits (n : Nat) : digitsToNat (natToDigits n) = n :=
  (natToDigitsGo_spec (n + 1) n (Nat.lt_of_lt_of_le (Nat.lt_pow_self (by norm_num) n)
    (Nat.pow_le_pow_right (by norm_num) (Nat.le_succ n)))).1

theorem natToDigits_digits (n : Nat) : ∀ c ∈ natToDigits n, c.isDigit = true :=
  (natToDigitsGo_spec (n + 1) n (Nat.lt_of_lt_of_le (Nat.lt_pow_self (by norm_num) n)
    (Nat.pow_le_pow_right (by norm_num) (Nat.le_succ n)))).2.1

theorem natToDigitsGo_ne_nil (fuel n : Nat) : natToDigitsGo (fuel + 1) n ≠ [] := by
  simp only [natToDigitsGo]
  split
  · simp
  · simp

theorem natToDigits_ne_nil (n : Nat) : natToDigits n ≠ [] :=
  natToDigitsGo_ne_nil n n

/-- Sufficient fuel is irrelevant: any two fuels at least 1 that bound the
number give the same digit list. -/
theorem natToDigitsGo_fuel_irrel : ∀ f1 : Nat, ∀ f2 n : Nat, 1 ≤ f1 → 1 ≤ f2 →
    n < 10 ^ f1 → n < 10 ^ f2 → natToDigitsGo f1 n = natToDigitsGo f2 n := by
  intro f1
  induction f1 with
  | zero => omega
  | succ g1 ih =>
    intro f2 n _ hf2 h1 h2
    obtain ⟨g2, rfl⟩ : ∃ g2, f2 = g2 + 1 := ⟨f2 - 1, by omega⟩
    by_cases h10 : n < 10
    · simp [natToDigitsGo, if_pos h10]
    · have hg1 : 1 ≤ g1 := by
        by_contra hc
        have : g1 = 0 := by omega
        rw [this] at h1
        simp at h1
        omega
      have hg2 : 1 ≤ g2 := by
        by_contra hc
        have : g2 = 0 := by omega
        rw [this] at h2
        simp at h2
        omega
      have hd1 : n / 10 < 10 ^ g1 := by
        have hp : (10 : Nat) ^ (g1 + 1) = 10 ^ g1 * 10 := by ring
        rw [hp] at h1
        omega
      have hd2 : n / 10 < 10 ^ g2 := by
        have hp : (10 : Nat) ^ (g2 + 1) = 10 ^ g2 * 10 := by ring
        rw [hp] at h2
        omega
      simp only [natToDigitsGo, if_neg h10]
      rw [ih g2 (n / 10) hg1 hg2 hd1 hd2]

/-- A number below `10 ^ k` has at most `k` digits. -/
theorem natToDigits_length_le (n k : Nat) (hk : 1 ≤ k) (h : n < 10 ^ k) :
    (natToDigits n).length ≤ k := by
  have hn1 : n < 10 ^ (n + 1) :=
    Nat.lt_of_lt_of_le (Nat.lt_pow_self (by norm_num) n)
      (Nat.pow_le_pow_right (by norm_num) (Nat.le_succ n))
  rw [natToDigits, natToDigitsGo_fuel_irrel (n + 1) k n (by omega) hk hn1 h]
  exact (natToDigitsGo_spec k n h).2.2

/-- Characters of a signed integer: a `-` sign for negatives, then the
decimal digits of the absolute value. -/
def intChars (v : Int) : List Char :=
  (if v < 0 then ['-'] else []) ++ natToDigits v.natAbs

/-- Left-pad a digit string with zeros to six places. -/
def padSixZeros (l : List Char) : List Char :=
  List.replicate (6 - l.length) '0' ++ l

/-- Trim trailing zero characters. -/
def trimZeros (l : List Char) : List Char :=
  (l.reverse.dropWhile (fun c => c == '0')).reverse

/-- Fractional-second digits of a microsecond remainder `f` (0 < f < 10^6):
six zero-padded places with trailing zeros trimmed. -/
def fracChars (f : Nat) : List Char :=
  trimZeros (padSixZeros (natToDigits f))

/-- Characters of the seconds component for the in-minute microsecond
remainder `r`: per-field sign, whole seconds, optional fraction, then `S`. -/
def secondsChars (r : Int) : List Char :=
  (if r < 0 then ['-'] else []) ++ natToDigits (r.tdiv 1000000).natAbs ++
    (if (r.tmod 1000000).natAbs = 0 then []
     else '.' :: fracChars (r.tmod 1000000).natAbs) ++ ['S']

/-- A component: its signed value followed by its designator, or nothing when
the value is zero. -/
def compChars (v : Int) (c : Char) : List Char :=
  if v = 0 then [] else intChars v ++ [c]

/-- The year-month-day portion: months split into years and months by
truncating division, then days. -/
def ymdChars (i : Interval) : List Char :=
  compChars (i.months.tdiv 12) 'Y' ++ compChars (i.months.tmod 12) 'M' ++
    compChars i.days 'D'

/-- The time portion: hours, minutes, seconds-with-fraction decomposed from
the microseconds by truncating division. -/
def hmsChars (micro : Int) : List Char :=
  compChars (micro.tdiv 3600000000) 'H' ++
    compChars ((micro.tmod 3600000000).tdiv 60000000) 'M' ++
    (if (micro.tmod 3600000000).tmod 60000000 = 0 then []
     else secondsChars ((micro.tmod 3600000000).tmod 60000000))

/-- Year-month-day portion followed by `T` and the time portion when the
latter is non-empty. -/
def bodyChars (i : Interval) : List Char :=
  ymdChars i ++
    (if (hmsChars i.microseconds).isEmpty then [] else 'T' :: hmsChars i.microseconds)

/-- Modelled from the spec: full ISO 8601 duration character stream — `P`
always first, and the all-zero interval prints as `P0D`. -/
def formatChars (i : Interval) : List Char :=
  'P' :: (if (bodyChars i).isEmpty then ['0', 'D'] else bodyChars i)

/-- Modelled from the spec: `pg_interval::Interval::to_iso_8601`. -/
def Interval.to_iso_8601 (i : Interval) : String :=
  String.mk (formatChars i)

/-- A lexed number: sign, integer digits, optional fraction digits. -/
structure NumTok where
  neg : Bool
  intDigits : List Char
  fracDigits : Option (List Char)
deriving DecidableEq, Repr

/-- The characters a token denotes. -/
def NumTok.chars (t : NumTok) : List Char :=
  (if t.neg then ['-'] else []) ++ t.intDigits ++
    (match t.fracDigits with
     | none => []
     | some fs => '.' :: fs)

/-- Lex one number after an optional sign: digits, then an optional point and
fraction digits; an empty digit run is an integer-parse failure, an empty
fraction run a fractional-parse failure. -/
def lexNumBody (neg : Bool) (l : List Char) : Except ParseError (NumTok × List Char) :=
  let ds := l.takeWhile Char.isDigit
  let r1 := l.dropWhile Char.isDigit
  if ds.isEmpty then .error (.ParseIntErr "cannot parse integer from empty string")
  else
    match r1 with
    | c1 :: l2 =>
      if c1 = '.' then
        let fs := l2.takeWhile Char.isDigit
        let r2 := l2.dropWhile Char.isDigit
        if fs.isEmpty then .error (.ParseFloatErr "cannot parse float from empty string")
        else .ok (⟨neg, ds, some fs⟩, r2)
      else .ok (⟨neg, ds, none⟩, c1 :: l2)
    | [] => .ok (⟨neg, ds, none⟩, [])

/-- Lex one signed number (a leading `-` is stripped first). -/
def lexNum (l : List Char) : Except ParseError (NumTok × List Char) :=
  match l with
  | c :: rest => if c = '-' then lexNumBody true rest else lexNumBody false (c :: rest)
  | [] => lexNumBody false []

/-- Lex the whole segment into (number, designator) pairs; a trailing number
with no designator letter is garbage and invalidates the interval. -/
def lexTokensGo : Nat → List Char → Except ParseError (List (NumTok × Char))
  | 0, _ => .error (.InvalidInterval "invalid interval format")
  | _ + 1, [] => .ok []
  | fuel + 1, c :: t =>
    match lexNum (c :: t) with
    | .error e => .error e
    | .ok (tok, rest) =>
      match rest with
      | [] => .error (.InvalidInterval "invalid interval format")
      | d :: rest2 =>
        match lexTokensGo fuel rest2 with
        | .error e => .error e
        | .ok ts => .ok ((tok, d) :: ts)

def lexTokens (l : List Char) : Except ParseError (List (NumTok × Char)) :=
  lexTokensGo (l.length + 1) l

def tokNat (t : NumTok) : Nat := digitsToNat t.intDigits

def tokInt (t : NumTok) : Int :=
  (if t.neg then -1 else 1) * (tokNat t : Int)

/-- Microseconds denoted by fraction digits (at most six significant). -/
def fracMicros (fs : List Char) : Nat :=
  digitsToNat (fs.take 6) * 10 ^ (6 - (fs.take 6).length)

/-- Microseconds denoted by a seconds token (sign applies to the whole
decimal). -/
def tokSecMicros (t : NumTok) : Int :=
  (if t.neg then -1 else 1) *
    ((tokNat t : Int) * 1000000 +
      (match t.fracDigits with
       | none => 0
       | some fs => (fracMicros fs : Int)))

/-- Contribution of one year-month-day token to (months, days): years count
twelve months, weeks seven days. -/
def ymdAdd (v : Int) (c : Char) (acc : Int × Int) : Int × Int :=
  match c with
  | 'Y' => (acc.1 + 12 * v, acc.2)
  | 'M' => (acc.1 + v, acc.2)
  | 'W' => (acc.1, acc.2 + 7 * v)
  | _ => (acc.1, acc.2 + v)

/-- Validate the year-month-day tokens: designators `Y`, `M`, `W`, `D`, each
at most once, in order, integers only. -/
def valYMDGo : List Char → Int × Int → List (NumTok × Char) → Except ParseError (Int × Int)
  | _, acc, [] => .ok acc
  | allowed, acc, (t, c) :: ts =>
    if t.fracDigits.isSome then .error (.InvalidYearMonth "invalid year month format")
    else
      match allowed.dropWhile (fun d => d ≠ c) with
      | [] => .error (.InvalidYearMonth "invalid year month format")
      | _ :: rest => valYMDGo rest (ymdAdd (tokInt t) c acc) ts

def valYMD (ts : List (NumTok × Char)) : Except ParseError (Int × Int) :=
  valYMDGo ['Y', 'M', 'W', 'D'] (0, 0) ts

/-- Contribution of one time token to the microsecond total. -/
def hmsAdd (t : NumTok) (c : Char) (acc : Int) : Int :=
  match c with
  | 'H' => acc + tokInt t * 3600000000
  | 'M' => acc + tokInt t * 60000000
  | _ => acc + tokSecMicros t

/-- Validate the time tokens: designators `H`, `M`, `S`, each at most once,
in order, a fraction only on seconds. -/
def valHMSGo : List Char → Int → List (NumTok × Char) → Except ParseError Int
  | _, acc, [] => .ok acc
  | allowed, acc, (t, c) :: ts =>
    if t.fracDigits.isSome ∧ c ≠ 'S' then .error (.InvalidTime "invalid time format")
    else
      match allowed.dropWhile (fun d => d ≠ c) with
      | [] => .error (.InvalidTime "invalid time format")
      | _ :: rest => valHMSGo rest (hmsAdd t c acc) ts

def valHMS (ts : List (NumTok × Char)) : Except ParseError Int :=
  valHMSGo ['H', 'M', 'S'] 0 ts

/-- Split at the first `T` designator; `none` when there is no time part. -/
def splitAtT (l : List Char) : List Char × Option (List Char) :=
  match l.dropWhile (fun c => c ≠ 'T') with
  | [] => (l.takeWhile (fun c => c ≠ 'T'), none)
  | _ :: post => (l.takeWhile (fun c => c ≠ 'T'), some post)

/-- Modelled from the spec: the parser — `P` required first (else the overall
interval is invalid), then the year-month-day segment, then optionally `T`
and a non-empty time segment. -/
def parseChars (l : List Char) : Except ParseError Interval :=
  match l with
  | [] => .error (.InvalidInterval "invalid interval format")
  | p :: rest =>
    if p ≠ 'P' then .error (.InvalidInterval "invalid interval format")
    else
    match splitAtT rest with
    | (pre, post) =>
      match lexTokens pre with
      | .error e => .error e
      | .ok ts1 =>
        match valYMD ts1 with
        | .error e => .error e
        | .ok (months, days) =>
          match post with
          | none => .ok ⟨months, days, 0⟩
          | some tl =>
            if tl.isEmpty then .error (.InvalidTime "invalid time format")
            else
              match lexTokens tl with
              | .error e => .error e
              | .ok ts2 =>
                match valHMS ts2 with
                | .error e => .error e
                | .ok micro => .ok ⟨months, days, micro⟩

/-- Modelled from the spec: `pg_interval::Interval::from_iso`. -/
def Interval.from_iso (s : String) : Except ParseError Interval :=
  parseChars s.data

/-! ### Round-trip lemmas for the text codec -/

theorem takeWhile_all_append_cons {p : Char → Bool} (l : List Char) (b : Char)
    (r : List Char) (hl : ∀ a ∈ l, p a = true) (hb : p b = false) :
    (l ++ b :: r).takeWhile p = l := by
  induction l with
  | nil => simp [List.takeWhile_cons, hb]
  | cons a t ih =>
    have ha : p a = true := hl a (by simp)
    simp only [List.cons_append, List.takeWhile_cons, ha, if_true]
    rw [ih (fun a h => hl a (by simp [h]))]

theorem dropWhile_all_append_cons {p : Char → Bool} (l : List Char) (b : Char)
    (r : List Char) (hl : ∀ a ∈ l, p a = true) (hb : p b = false) :
    (l ++ b :: r).dropWhile p = b :: r := by
  induction l with
  | nil => simp [List.dropWhile_cons, hb]
  | cons a t ih =>
    have ha : p a = true := hl a (by simp)
    simp only [List.cons_append, List.dropWhile_cons, ha, if_true]
    exact ih (fun a h => hl a (by simp [h]))

theorem digitsToNat_zero_cons (l : List Char) :
    digitsToNat ('0' :: l) = digitsToNat l := by
  have h0 : digitVal '0' = 0 := rfl
  simp [digitsToNat, List.foldl_cons, h0]

theorem digitsToNat_replicate_zero (k : Nat) (l : List Char) :
    digitsToNat (List.replicate k '0' ++ l) = digitsToNat l := by
  induction k with
  | zero => simp
  | succ k ih =>
    rw [List.replicate_succ, List.cons_append, digitsToNat_zero_cons, ih]

theorem digitsToNat_append_replicate_zero (l : List Char) (k : Nat) :
    digitsToNat (l ++ List.replicate k '0') = digitsToNat l * 10 ^ k := by
  induction k with
  | zero => simp
  | succ k ih =>
    rw [List.replicate_succ', ← List.append_assoc, digitsToNat_append_singleton, ih]
    have h0 : digitVal '0' = 0 := rfl
    rw [h0]
    ring

theorem trimZeros_decomp (l : List Char) :
    l = trimZeros l ++ List.replicate (l.length - (trimZeros l).length) '0' ∧
    (trimZeros l).length ≤ l.length := by
  have hsplit := List.takeWhile_append_dropWhile (fun c => c == '0') l.reverse
  have htw : l.reverse.takeWhile (fun c => c == '0') =
      List.replicate (l.reverse.takeWhile (fun c => c == '0')).length '0' := by
    apply List.eq_replicate_of_mem
    intro b hb
    have := List.mem_takeWhile_imp hb
    exact eq_of_beq this
  have hlen : (trimZeros l).length ≤ l.length := by
    unfold trimZeros
    have := List.Sublist.length_le (List.Sublist.reverse
      (List.dropWhile_sublist (l := l.reverse) (fun c => c == '0')))
    simpa using this
  refine ⟨?_, hlen⟩
  have : l = (l.reverse.dropWhile (fun c => c == '0')).reverse ++
      (l.reverse.takeWhile (fun c => c == '0')).reverse := by
    conv_lhs => rw [← List.reverse_reverse l, ← hsplit]
    rw [List.reverse_append]
  unfold trimZeros
  conv_lhs => rw [this]
  congr 1
  rw [htw, List.reverse_replicate]
  congr 1
  have hL := congrArg List.length hsplit
  simp only [List.length_append, List.length_reverse] at hL
  simp only [List.length_reverse]
  omega

theorem trimZeros_sub_mem (l : List Char) (c : Char) (h : c ∈ trimZeros l) : c ∈ l := by
  unfold trimZeros at h
  rw [List.mem_reverse] at h
  have := List.Sublist.mem h (List.dropWhile_sublist (l := l.reverse) (fun c => c == '0'))
  rwa [List.mem_reverse] at this

theorem fracChars_spec (f : Nat) (hf : f < 1000000) :
    digitsToNat (fracChars f) * 10 ^ (6 - (fracChars f).length) = f ∧
    (fracChars f).length ≤ 6 ∧
    (∀ c ∈ fracChars f, c.isDigit = true) ∧
    (f ≠ 0 → fracChars f ≠ []) := by
  have hd6len : (padSixZeros (natToDigits f)).length = 6 := by
    have hle : (natToDigits f).length ≤ 6 :=
      natToDigits_length_le f 6 (by norm_num) (by norm_num; omega)
    simp [padSixZeros]
    omega
  have hd6val : digitsToNat (padSixZeros (natToDigits f)) = f := by
    rw [padSixZeros, digitsToNat_replicate_zero, digitsToNat_natToDigits]
  obtain ⟨hdec, hlen⟩ := trimZeros_decomp (padSixZeros (natToDigits f))
  have hkval : digitsToNat (fracChars f) *
      10 ^ ((padSixZeros (natToDigits f)).length - (fracChars f).length) = f := by
    rw [fracChars]
    conv_rhs => rw [← hd6val]
    conv_rhs => rw [hdec]
    rw [digitsToNat_append_replicate_zero]
  have hflen : (fracChars f).length ≤ 6 := by
    rw [fracChars]
    rw [hd6len] at hlen
    exact hlen
  refine ⟨?_, hflen, ?_, ?_⟩
  · rw [hd6len] at hkval
    exact hkval
  · intro c hc
    rw [fracChars] at hc
    have hmem := trimZeros_sub_mem _ c hc
    rw [padSixZeros, List.mem_append] at hmem
    rcases hmem with hmem | hmem
    · rw [List.eq_of_mem_replicate hmem]
      decide
    · exact natToDigits_digits f c hmem
  · intro hf0 hnil
    apply hf0
    rw [hnil] at hkval
    simp [digitsToNat] at hkval
    omega

theorem tmod_natAbs (a : Int) (b : Nat) : (a.tmod b).natAbs = a.natAbs % b := by
  cases a with
  | ofNat m =>
    have hdef : (Int.ofNat m).tmod ((b : Nat) : Int) = ((m % b : Nat) : Int) := rfl
    rw [hdef, Int.natAbs_cast]
    rfl
  | negSucc m =>
    have hdef : (Int.negSucc m).tmod ((b : Nat) : Int) = -(((m + 1) % b : Nat) : Int) := rfl
    rw [hdef, Int.natAbs_neg, Int.natAbs_cast, Int.natAbs_negSucc]

theorem natAbs_tdiv_tmod_sum (a : Int) (b : Nat) :
    (a.tdiv b).natAbs * b + (a.tmod b).natAbs = a.natAbs := by
  rw [Int.natAbs_tdiv, tmod_natAbs, Int.natAbs_cast, Nat.mul_comm]
  exact Nat.div_add_mod a.natAbs b

theorem sign_natAbs (v : Int) :
    (if v < 0 then (-1 : Int) else 1) * (v.natAbs : Int) = v := by
  split <;> omega

theorem sign_recompose (a : Int) (b : Nat) :
    (if a < 0 then (-1 : Int) else 1) *
      (((a.tdiv b).natAbs * b + (a.tmod b).natAbs : Nat) : Int) = a := by
  rw [natAbs_tdiv_tmod_sum]
  exact sign_natAbs a

theorem sign_recompose_cast (a : Int) (b : Nat) :
    (if a < 0 then (-1 : Int) else 1) *
      (((a.tdiv b).natAbs : Int) * (b : Int) + ((a.tmod b).natAbs : Int)) = a := by
  have h := sign_recompose a b
  have hcast : (((a.tdiv b).natAbs * b + (a.tmod b).natAbs : Nat) : Int) =
      ((a.tdiv b).natAbs : Int) * (b : Int) + ((a.tmod b).natAbs : Int) := by
    push_cast
    ring
  rw [hcast] at h
  exact h

theorem tmod_million_natAbs_lt (a : Int) : (a.tmod 1000000).natAbs < 1000000 := by
  have h : (1000000 : Int) = ((1000000 : Nat) : Int) := rfl
  rw [h, tmod_natAbs]
  exact Nat.mod_lt _ (by norm_num)

theorem sign_recompose_million (r : Int) :
    (if r < 0 then (-1 : Int) else 1) *
      (((r.tdiv 1000000).natAbs : Int) * 1000000 + ((r.tmod 1000000).natAbs : Int)) = r := by
  have h := sign_recompose_cast r 1000000
  have e1 : ((1000000 : Nat) : Int) = (1000000 : Int) := rfl
  rw [e1] at h
  exact h

theorem fracMicros_fracChars (f : Nat) (hf : f < 1000000) :
    fracMicros (fracChars f) = f := by
  obtain ⟨h1, h2, _, _⟩ := fracChars_spec f hf
  rw [fracMicros, List.take_of_length_le h2]
  exact h1

/-- A well-formed lexed token: non-empty digit runs throughout. -/
def TokWF (t : NumTok) : Prop :=
  t.intDigits ≠ [] ∧ (∀ c ∈ t.intDigits, c.isDigit = true) ∧
  (∀ fs, t.fracDigits = some fs → fs ≠ [] ∧ ∀ c ∈ fs, c.isDigit = true)

/-- A designator character: not a digit, not a sign, not a point. -/
def IsDesig (c : Char) : Prop :=
  c.isDigit = false ∧ c ≠ '-' ∧ c ≠ '.'

/-- The token an integer component renders as. -/
def intTok (v : Int) : NumTok :=
  ⟨decide (v < 0), natToDigits v.natAbs, none⟩

/-- The token a seconds component renders as. -/
def secTok (r : Int) : NumTok :=
  ⟨decide (r < 0), natToDigits (r.tdiv 1000000).natAbs,
   if (r.tmod 1000000).natAbs = 0 then none
   else some (fracChars (r.tmod 1000000).natAbs)⟩

theorem intChars_eq_chars (v : Int) : intChars v = (intTok v).chars := by
  by_cases hv : v < 0 <;> simp [intChars, intTok, NumTok.chars, hv]

theorem secondsChars_eq_chars (r : Int) :
    secondsChars r = (secTok r).chars ++ ['S'] := by
  by_cases hr : r < 0 <;> by_cases hf : (r.tmod 1000000).natAbs = 0 <;>
    simp [secondsChars, secTok, NumTok.chars, hr, hf]

theorem tokWF_intTok (v : Int) : TokWF (intTok v) :=
  ⟨natToDigits_ne_nil _, natToDigits_digits _, fun _ h => Option.noConfusion h⟩

theorem tokWF_secTok (r : Int) : TokWF (secTok r) := by
  have hb : (r.tmod 1000000).natAbs < 1000000 := tmod_million_natAbs_lt r
  obtain ⟨_, _, h3, h4⟩ := fracChars_spec (r.tmod 1000000).natAbs hb
  refine ⟨natToDigits_ne_nil _, natToDigits_digits _, ?_⟩
  intro fs h
  rw [secTok] at h
  simp only [] at h
  split at h
  · exact Option.noConfusion h
  · rename_i hne
    rw [← Option.some.inj h]
    exact ⟨h4 hne, h3⟩

theorem tokInt_intTok (v : Int) : tokInt (intTok v) = v := by
  rw [tokInt, intTok]
  simp only [tokNat, digitsToNat_natToDigits, decide_eq_true_eq]
  exact sign_natAbs v

theorem tokSecMicros_secTok (r : Int) : tokSecMicros (secTok r) = r := by
  have hb : (r.tmod 1000000).natAbs < 1000000 := tmod_million_natAbs_lt r
  have hrec := sign_recompose_million r
  by_cases hf : (r.tmod 1000000).natAbs = 0
  · rw [tokSecMicros, secTok]
    simp only [if_pos hf, tokNat, digitsToNat_natToDigits, decide_eq_true_eq]
    rw [hf] at hrec
    simpa using hrec
  · rw [tokSecMicros, secTok]
    simp only [if_neg hf, tokNat, digitsToNat_natToDigits, decide_eq_true_eq]
    rw [fracMicros_fracChars _ hb]
    exact hrec

/-- The fraction part a token's characters contain. -/
def fracPart (fr : Option (List Char)) : List Char :=
  match fr with
  | none => []
  | some fs => '.' :: fs

theorem chars_eq (neg : Bool) (ds : List Char) (fr : Option (List Char)) :
    NumTok.chars ⟨neg, ds, fr⟩ = (if neg then ['-'] else []) ++ ds ++ fracPart fr := rfl

theorem lexNumBody_render (neg : Bool) (ds : List Char) (fr : Option (List Char))
    (c : Char) (rest : List Char) (hds : ds ≠ []) (hdig : ∀ a ∈ ds, a.isDigit = true)
    (hfr : ∀ fs, fr = some fs → fs ≠ [] ∧ ∀ a ∈ fs, a.isDigit = true)
    (hc : IsDesig c) :
    lexNumBody neg (ds ++ fracPart fr ++ c :: rest) = .ok (⟨neg, ds, fr⟩, c :: rest) := by
  obtain ⟨hc1, hc2, hc3⟩ := hc
  cases fr with
  | none =>
    simp only [fracPart, List.append_nil]
    have htw : (ds ++ c :: rest).takeWhile Char.isDigit = ds :=
      takeWhile_all_append_cons ds c rest hdig hc1
    have hdw : (ds ++ c :: rest).dropWhile Char.isDigit = c :: rest :=
      dropWhile_all_append_cons ds c rest hdig hc1
    simp [lexNumBody, htw, hdw, hds, hc3]
  | some fs =>
    obtain ⟨hfs1, hfs2⟩ := hfr fs rfl
    have hdot : ('.' : Char).isDigit = false := by decide
    have hassoc : ds ++ fracPart (some fs) ++ c :: rest =
        ds ++ '.' :: (fs ++ c :: rest) := by
      simp [fracPart]
    rw [hassoc]
    have htw : (ds ++ '.' :: (fs ++ c :: rest)).takeWhile Char.isDigit = ds :=
      takeWhile_all_append_cons ds '.' _ hdig hdot
    have hdw : (ds ++ '.' :: (fs ++ c :: rest)).dropWhile Char.isDigit =
        '.' :: (fs ++ c :: rest) :=
      dropWhile_all_append_cons ds '.' _ hdig hdot
    have htw2 : (fs ++ c :: rest).takeWhile Char.isDigit = fs :=
      takeWhile_all_append_cons fs c rest hfs2 hc1
    have hdw2 : (fs ++ c :: rest).dropWhile Char.isDigit = c :: rest :=
      dropWhile_all_append_cons fs c rest hfs2 hc1
    simp [lexNumBody, htw, hdw, htw2, hdw2, hds, hfs1]

theorem lexNum_render (t : NumTok) (c : Char) (rest : List Char)
    (hwf : TokWF t) (hc : IsDesig c) :
    lexNum (t.chars ++ c :: rest) = .ok (t, c :: rest) := by
  obtain ⟨neg, ds, fr⟩ := t
  obtain ⟨h1, h2, h3⟩ := hwf
  simp only [TokWF] at h1 h2 h3
  cases neg with
  | true =>
    have hch : NumTok.chars ⟨true, ds, fr⟩ ++ c :: rest =
        '-' :: (ds ++ fracPart fr ++ c :: rest) := by
      rw [chars_eq]
      simp
    rw [hch, lexNum]
    simp only [if_pos rfl]
    exact lexNumBody_render true ds fr c rest h1 h2 h3 hc
  | false =>
    obtain ⟨d, ds2, rfl⟩ := List.exists_cons_of_ne_nil h1
    have hd : d.isDigit = true := h2 d (by simp)
    have hdm : d ≠ '-' := by
      intro he
      rw [he] at hd
      exact absurd hd (by decide)
    have hch : NumTok.chars ⟨false, d :: ds2, fr⟩ ++ c :: rest =
        d :: (ds2 ++ fracPart fr ++ c :: rest) := by
      rw [chars_eq]
      simp
    rw [hch, lexNum]
    simp only [if_neg hdm]
    have hback : d :: (ds2 ++ fracPart fr ++ c :: rest) =
        (d :: ds2) ++ fracPart fr ++ c :: rest := by simp
    rw [hback]
    exact lexNumBody_render false (d :: ds2) fr c rest (by simp) h2 h3 hc

theorem lexNumBody_consumes (neg : Bool) (l r : List Char) (t : NumTok)
    (h : lexNumBody neg l = .ok (t, r)) : r.length < l.length := by
  have hsum : (l.takeWhile Char.isDigit).length + (l.dropWhile Char.isDigit).length
      = l.length := by
    rw [← List.length_append, List.takeWhile_append_dropWhile]
  simp only [lexNumBody] at h
  split at h
  · exact Except.noConfusion h
  · rename_i hne
    have hdslen : 1 ≤ (l.takeWhile Char.isDigit).length := by
      rcases Nat.eq_zero_or_pos (l.takeWhile Char.isDigit).length with h0 | h0
      · rw [List.length_eq_zero] at h0
        rw [h0] at hne
        simp at hne
      · exact h0
    split at h
    · rename_i c1 l2 heq
      split at h
      · have hsum2 : (l2.takeWhile Char.isDigit).length +
            (l2.dropWhile Char.isDigit).length = l2.length := by
          rw [← List.length_append, List.takeWhile_append_dropWhile]
        split at h
        · exact Except.noConfusion h
        · cases Except.ok.inj h
          have : l2.length < (l.dropWhile Char.isDigit).length := by
            rw [heq]
            simp
          have hle : (l2.dropWhile Char.isDigit).length ≤ l2.length := by omega
          omega
      · cases Except.ok.inj h
        have : (c1 :: l2).length = (l.dropWhile Char.isDigit).length := by rw [heq]
        omega
    · cases Except.ok.inj h
      simp
      omega

theorem lexNum_consumes (l r : List Char) (t : NumTok)
    (h : lexNum l = .ok (t, r)) : r.length < l.length := by
  cases l with
  | nil =>
    rw [lexNum, lexNumBody] at h
    simp at h
  | cons c tl =>
    rw [lexNum] at h
    split at h
    · have := lexNumBody_consumes true tl r t h
      simp
      omega
    · exact lexNumBody_consumes false (c :: tl) r t h

theorem lexTokensGo_fuel_irrel : ∀ f1 : Nat, ∀ f2 : Nat, ∀ l : List Char,
    l.length < f1 → l.length < f2 → lexTokensGo f1 l = lexTokensGo f2 l := by
  intro f1
  induction f1 with
  | zero => intro f2 l h1 _; omega
  | succ g1 ih =>
    intro f2 l h1 h2
    obtain ⟨g2, rfl⟩ : ∃ g2, f2 = g2 + 1 := ⟨f2 - 1, by omega⟩
    cases l with
    | nil => rfl
    | cons c tl =>
      simp only [lexTokensGo]
      cases hlex : lexNum (c :: tl) with
      | error e => rfl
      | ok pr =>
        obtain ⟨tok, rest⟩ := pr
        have hcons := lexNum_consumes _ _ _ hlex
        cases rest with
        | nil => rfl
        | cons d rest2 =>
          simp only [List.length_cons] at hcons h1 h2
          change (match lexTokensGo g1 rest2 with
            | Except.error e => Except.error e
            | Except.ok ts => Except.ok ((tok, d) :: ts)) =
            (match lexTokensGo g2 rest2 with
            | Except.error e => Except.error e
            | Except.ok ts => Except.ok ((tok, d) :: ts))
          rw [ih g2 rest2 (by omega) (by omega)]

theorem lexTokens_nil : lexTokens [] = .ok [] := rfl

theorem chars_ne_nil (t : NumTok) (hwf : TokWF t) : t.chars ≠ [] := by
  obtain ⟨neg, ds, fr⟩ := t
  obtain ⟨h1, _, _⟩ := hwf
  rw [chars_eq]
  simp [h1]

theorem lexTokens_cons_tok (t : NumTok) (c : Char) (rest : List Char)
    (hwf : TokWF t) (hc : IsDesig c) :
    lexTokens (t.chars ++ c :: rest) =
      match lexTokens rest with
      | .error e => .error e
      | .ok ts => .ok ((t, c) :: ts) := by
  obtain ⟨a, as, heq⟩ := List.exists_cons_of_ne_nil (chars_ne_nil t hwf)
  have heq2 : t.chars ++ c :: rest = a :: (as ++ c :: rest) := by
    rw [heq]
    simp
  rw [lexTokens, heq2]
  have hflen : (a :: (as ++ c :: rest)).length + 1 = (as ++ c :: rest).length + 1 + 1 := by
    simp
  rw [hflen]
  simp only [lexTokensGo]
  rw [← heq2, lexNum_render t c rest hwf hc]
  change (match lexTokensGo ((as ++ c :: rest).length + 1) rest with
    | Except.error e => Except.error e
    | Except.ok ts => Except.ok ((t, c) :: ts)) = _
  rw [lexTokensGo_fuel_irrel ((as ++ c :: rest).length + 1) (rest.length + 1) rest
    (by simp only [List.length_append, List.length_cons]; omega) (by omega)]
  rfl

/-- The characters a token stream renders as. -/
def renderToks : List (NumTok × Char) → List Char
  | [] => []
  | (t, c) :: L => t.chars ++ c :: renderToks L

/-- A token stream is well-formed when every token is well-formed and every
designator really is one. -/
def ToksWF (L : List (NumTok × Char)) : Prop :=
  ∀ p ∈ L, TokWF p.1 ∧ IsDesig p.2

theorem lexTokens_renderToks (L : List (NumTok × Char)) (h : ToksWF L) :
    lexTokens (renderToks L) = .ok L := by
  induction L with
  | nil => rfl
  | cons p L ih =>
    obtain ⟨t, c⟩ := p
    have hp := h (t, c) (by simp)
    rw [renderToks, lexTokens_cons_tok t c (renderToks L) hp.1 hp.2]
    rw [ih (fun q hq => h q (by simp [hq]))]

theorem renderToks_append (A B : List (NumTok × Char)) :
    renderToks (A ++ B) = renderToks A ++ renderToks B := by
  induction A with
  | nil => rfl
  | cons p A ih =>
    obtain ⟨t, c⟩ := p
    show renderToks ((t, c) :: (A ++ B)) = renderToks ((t, c) :: A) ++ renderToks B
    rw [renderToks, renderToks, ih]
    simp

theorem renderToks_mem (L : List (NumTok × Char)) (a : Char)
    (h : a ∈ renderToks L) (hwf : ToksWF L) :
    a.isDigit = true ∨ a = '-' ∨ a = '.' ∨ ∃ p ∈ L, a = p.2 := by
  induction L with
  | nil => simp [renderToks] at h
  | cons p L ih =>
    obtain ⟨t, c⟩ := p
    obtain ⟨neg, ds, fr⟩ := t
    obtain ⟨⟨_, hdig, hfr⟩, _⟩ := hwf (⟨neg, ds, fr⟩, c) (by simp)
    rw [renderToks] at h
    rw [List.mem_append] at h
    rcases h with h | h
    · rw [chars_eq] at h
      simp only [List.mem_append] at h
      rcases h with (h | h) | h
      · split at h
        · right
          left
          simpa using h
        · simp at h
      · exact Or.inl (hdig a h)
      · cases fr with
        | none => simp [fracPart] at h
        | some fs =>
          simp only [fracPart, List.mem_cons] at h
          rcases h with h | h
          · exact Or.inr (Or.inr (Or.inl h))
          · exact Or.inl ((hfr fs rfl).2 a h)
    · rw [List.mem_cons] at h
      rcases h with h | h
      · exact Or.inr (Or.inr (Or.inr ⟨(⟨neg, ds, fr⟩, c), by simp, h⟩))
      · rcases ih h (fun q hq => hwf q (by simp [hq])) with h | h | h | ⟨q, hq1, hq2⟩
        · exact Or.inl h
        · exact Or.inr (Or.inl h)
        · exact Or.inr (Or.inr (Or.inl h))
        · exact Or.inr (Or.inr (Or.inr ⟨q, by simp [hq1], hq2⟩))

theorem intTok_fracDigits (v : Int) : (intTok v).fracDigits = none := rfl

/-- The token-designator list the year-month-day portion renders as. -/
def ymdToks (y mo d : Int) : List (NumTok × Char) :=
  (if y = 0 then [] else [(intTok y, 'Y')]) ++
  (if mo = 0 then [] else [(intTok mo, 'M')]) ++
  (if d = 0 then [] else [(intTok d, 'D')])

/-- The token-designator list the time portion renders as. -/
def hmsToks (h m r : Int) : List (NumTok × Char) :=
  (if h = 0 then [] else [(intTok h, 'H')]) ++
  (if m = 0 then [] else [(intTok m, 'M')]) ++
  (if r = 0 then [] else [(secTok r, 'S')])

theorem valYMD_ymdToks (y mo d : Int) :
    valYMD (ymdToks y mo d) = .ok (12 * y + mo, d) := by
  by_cases hy : y = 0 <;> by_cases hm : mo = 0 <;> by_cases hd : d = 0 <;>
    simp [ymdToks, hy, hm, hd, valYMD, valYMDGo, ymdAdd, intTok_fracDigits,
      tokInt_intTok]

theorem valHMS_hmsToks (h m r : Int) :
    valHMS (hmsToks h m r) = .ok (h * 3600000000 + m * 60000000 + r) := by
  by_cases hh : h = 0 <;> by_cases hm : m = 0 <;> by_cases hr : r = 0 <;>
    simp [hmsToks, hh, hm, hr, valHMS, valHMSGo, hmsAdd, intTok_fracDigits,
      tokInt_intTok, tokSecMicros_secTok]

theorem isDesig_Y : IsDesig 'Y' := ⟨by decide, by decide, by decide⟩

theorem isDesig_M : IsDesig 'M' := ⟨by decide, by decide, by decide⟩

theorem isDesig_D : IsDesig 'D' := ⟨by decide, by decide, by decide⟩

theorem isDesig_H : IsDesig 'H' := ⟨by decide, by decide, by decide⟩

theorem isDesig_S : IsDesig 'S' := ⟨by decide, by decide, by decide⟩

theorem toksWF_ymdToks (y mo d : Int) : ToksWF (ymdToks y mo d) := by
  intro p hp
  rw [ymdToks] at hp
  simp only [List.mem_append] at hp
  rcases hp with (hp | hp) | hp
  · split at hp
    · exact absurd hp (List.not_mem_nil p)
    · rw [List.mem_singleton] at hp
      rw [hp]
      exact ⟨tokWF_intTok _, isDesig_Y⟩
  · split at hp
    · exact absurd hp (List.not_mem_nil p)
    · rw [List.mem_singleton] at hp
      rw [hp]
      exact ⟨tokWF_intTok _, isDesig_M⟩
  · split at hp
    · exact absurd hp (List.not_mem_nil p)
    · rw [List.mem_singleton] at hp
      rw [hp]
      exact ⟨tokWF_intTok _, isDesig_D⟩

theorem toksWF_hmsToks (h m r : Int) : ToksWF (hmsToks h m r) := by
  intro p hp
  rw [hmsToks] at hp
  simp only [List.mem_append] at hp
  rcases hp with (hp | hp) | hp
  · split at hp
    · exact absurd hp (List.not_mem_nil p)
    · rw [List.mem_singleton] at hp
      rw [hp]
      exact ⟨tokWF_intTok _, isDesig_H⟩
  · split at hp
    · exact absurd hp (List.not_mem_nil p)
    · rw [List.mem_singleton] at hp
      rw [hp]
      exact ⟨tokWF_intTok _, isDesig_M⟩
  · split at hp
    · exact absurd hp (List.not_mem_nil p)
    · rw [List.mem_singleton] at hp
      rw [hp]
      exact ⟨tokWF_secTok _, isDesig_S⟩

theorem compChars_eq (v : Int) (c : Char) :
    compChars v c = renderToks (if v = 0 then [] else [(intTok v, c)]) := by
  by_cases hv : v = 0 <;> simp [compChars, hv, renderToks, intChars_eq_chars]

theorem ymdChars_eq (i : Interval) :
    ymdChars i = renderToks (ymdToks (i.months.tdiv 12) (i.months.tmod 12) i.days) := by
  rw [ymdChars, compChars_eq, compChars_eq, compChars_eq, ymdToks,
    renderToks_append, renderToks_append]

theorem hmsChars_eq (micro : Int) :
    hmsChars micro = renderToks (hmsToks (micro.tdiv 3600000000)
      ((micro.tmod 3600000000).tdiv 60000000) ((micro.tmod 3600000000).tmod 60000000)) := by
  rw [hmsChars, compChars_eq, compChars_eq, hmsToks,
    renderToks_append, renderToks_append]
  congr 1
  by_cases hr : (micro.tmod 3600000000).tmod 60000000 = 0 <;>
    simp [hr, renderToks, secondsChars_eq_chars]

theorem splitAtT_no_T (l : List Char) (h : ∀ a ∈ l, a ≠ 'T') :
    splitAtT l = (l, none) := by
  have hdw : l.dropWhile (fun c => c ≠ 'T') = [] := by
    rw [List.dropWhile_eq_nil_iff]
    intro x hx
    simp [h x hx]
  have htw : l.takeWhile (fun c => c ≠ 'T') = l := by
    rw [List.takeWhile_eq_self_iff]
    intro x hx
    simp [h x hx]
  rw [splitAtT, hdw, htw]

theorem splitAtT_mid (pre post : List Char) (h : ∀ a ∈ pre, a ≠ 'T') :
    splitAtT (pre ++ 'T' :: post) = (pre, some post) := by
  have hdw : (pre ++ 'T' :: post).dropWhile (fun c => c ≠ 'T') = 'T' :: post :=
    dropWhile_all_append_cons pre 'T' post (fun a ha => by simp [h a ha]) (by simp)
  have htw : (pre ++ 'T' :: post).takeWhile (fun c => c ≠ 'T') = pre :=
    takeWhile_all_append_cons pre 'T' post (fun a ha => by simp [h a ha]) (by simp)
  rw [splitAtT, hdw, htw]

theorem ymdToks_nil_iff (y mo d : Int) :
    ymdToks y mo d = [] ↔ y = 0 ∧ mo = 0 ∧ d = 0 := by
  by_cases hy : y = 0 <;> by_cases hm : mo = 0 <;> by_cases hd : d = 0 <;>
    simp [ymdToks, hy, hm, hd]

theorem hmsToks_nil_iff (h m r : Int) :
    hmsToks h m r = [] ↔ h = 0 ∧ m = 0 ∧ r = 0 := by
  by_cases hh : h = 0 <;> by_cases hm : m = 0 <;> by_cases hr : r = 0 <;>
    simp [hmsToks, hh, hm, hr]

theorem renderToks_nil_iff (L : List (NumTok × Char)) (hwf : ToksWF L) :
    renderToks L = [] ↔ L = [] := by
  constructor
  · intro h
    cases L with
    | nil => rfl
    | cons p L2 =>
      obtain ⟨t, c⟩ := p
      rw [renderToks] at h
      rw [List.append_eq_nil] at h
      exact absurd h.2 (by simp)
  · intro h
    rw [h]
    rfl

theorem ymdChars_no_T (i : Interval) : ∀ a ∈ ymdChars i, a ≠ 'T' := by
  intro a ha
  rw [ymdChars_eq] at ha
  rcases renderToks_mem _ a ha (toksWF_ymdToks _ _ _) with h | h | h | ⟨p, hp, hp2⟩
  · intro he
    rw [he] at h
    exact absurd h (by decide)
  · rw [h]; decide
  · rw [h]; decide
  · rw [hp2]
    rw [ymdToks] at hp
    simp only [List.mem_append] at hp
    rcases hp with (hp | hp) | hp
    · split at hp
      · exact absurd hp (List.not_mem_nil p)
      · rw [List.mem_singleton] at hp
        rw [hp]
        exact (by decide : ('Y' : Char) ≠ 'T')
    · split at hp
      · exact absurd hp (List.not_mem_nil p)
      · rw [List.mem_singleton] at hp
        rw [hp]
        exact (by decide : ('M' : Char) ≠ 'T')
    · split at hp
      · exact absurd hp (List.not_mem_nil p)
      · rw [List.mem_singleton] at hp
        rw [hp]
        exact (by decide : ('D' : Char) ≠ 'T')

/-- The microseconds decompose to zero components iff they are zero. -/
theorem hms_components_zero (micro : Int)
    (h : micro.tdiv 3600000000 = 0 ∧ (micro.tmod 3600000000).tdiv 60000000 = 0 ∧
      (micro.tmod 3600000000).tmod 60000000 = 0) : micro = 0 := by
  have h1 := Int.tdiv_add_tmod micro 3600000000
  have h2 := Int.tdiv_add_tmod (micro.tmod 3600000000) 60000000
  rw [h.1] at h1
  rw [h.2.1] at h2
  rw [h.2.2] at h2
  omega

theorem micro_recompose (micro : Int) :
    micro.tdiv 3600000000 * 3600000000 +
      (micro.tmod 3600000000).tdiv 60000000 * 60000000 +
      (micro.tmod 3600000000).tmod 60000000 = micro := by
  have h1 := Int.tdiv_add_tmod micro 3600000000
  have h2 := Int.tdiv_add_tmod (micro.tmod 3600000000) 60000000
  omega

theorem months_recompose (months : Int) :
    12 * months.tdiv 12 + months.tmod 12 = months :=
  Int.tdiv_add_tmod months 12

/-- Round trip of the modelled text codec: parsing a formatted interval
reproduces it exactly, signs and all. -/
theorem parseChars_formatChars (i : Interval) :
    parseChars (formatChars i) = .ok i := by
  obtain ⟨im, idd, iu⟩ := i
  have hmonths := months_recompose im
  have hmicro := micro_recompose iu
  have hymd : ymdChars ⟨im, idd, iu⟩ = renderToks (ymdToks (im.tdiv 12) (im.tmod 12) idd) :=
    ymdChars_eq ⟨im, idd, iu⟩
  have hhmse : hmsChars iu = renderToks (hmsToks (iu.tdiv 3600000000)
      ((iu.tmod 3600000000).tdiv 60000000) ((iu.tmod 3600000000).tmod 60000000)) :=
    hmsChars_eq iu
  by_cases hbody : (bodyChars ⟨im, idd, iu⟩).isEmpty
  · rw [formatChars, if_pos hbody]
    rw [List.isEmpty_iff, bodyChars, List.append_eq_nil] at hbody
    obtain ⟨hymdnil, htime⟩ := hbody
    rw [hymd] at hymdnil
    rw [renderToks_nil_iff _ (toksWF_ymdToks _ _ _), ymdToks_nil_iff] at hymdnil
    have hmz : im = 0 := by
      rw [hymdnil.1, hymdnil.2.1] at hmonths
      omega
    have hdz : idd = 0 := hymdnil.2.2
    have huz : iu = 0 := by
      by_cases hhms : (hmsChars iu).isEmpty
      · rw [List.isEmpty_iff, hhmse] at hhms
        rw [renderToks_nil_iff _ (toksWF_hmsToks _ _ _), hmsToks_nil_iff] at hhms
        exact hms_components_zero _ hhms
      · rw [if_neg (by simp only [Interval.microseconds] at hhms ⊢; exact hhms)] at htime
        exact absurd htime (by simp)
    rw [hmz, hdz, huz]
    decide
  · rw [formatChars, if_neg hbody]
    have hymdl := lexTokens_renderToks _ (toksWF_ymdToks (im.tdiv 12) (im.tmod 12) idd)
    have hymdv := valYMD_ymdToks (im.tdiv 12) (im.tmod 12) idd
    by_cases hhms : (hmsChars iu).isEmpty
    · have huz : iu = 0 := by
        rw [List.isEmpty_iff, hhmse] at hhms
        rw [renderToks_nil_iff _ (toksWF_hmsToks _ _ _), hmsToks_nil_iff] at hhms
        exact hms_components_zero _ hhms
      have hbc : bodyChars ⟨im, idd, iu⟩ = ymdChars ⟨im, idd, iu⟩ := by
        rw [bodyChars, if_pos (by simpa using hhms), List.append_nil]
      rw [hbc, hymd]
      have hsplit : splitAtT (renderToks (ymdToks (im.tdiv 12) (im.tmod 12) idd)) =
          (renderToks (ymdToks (im.tdiv 12) (im.tmod 12) idd), none) := by
        apply splitAtT_no_T
        rw [← hymd]
        exact ymdChars_no_T ⟨im, idd, iu⟩
      simp only [parseChars, hsplit, hymdl, hymdv, hmonths]
      rw [huz]
      simp
    · have hbc : bodyChars ⟨im, idd, iu⟩ =
          ymdChars ⟨im, idd, iu⟩ ++ 'T' :: hmsChars iu := by
        rw [bodyChars, if_neg (by simpa using hhms)]
      rw [hbc, hymd, hhmse]
      have hsplit : splitAtT (renderToks (ymdToks (im.tdiv 12) (im.tmod 12) idd) ++
          'T' :: renderToks (hmsToks (iu.tdiv 3600000000)
            ((iu.tmod 3600000000).tdiv 60000000) ((iu.tmod 3600000000).tmod 60000000))) =
          (renderToks (ymdToks (im.tdiv 12) (im.tmod 12) idd),
           some (renderToks (hmsToks (iu.tdiv 3600000000)
            ((iu.tmod 3600000000).tdiv 60000000) ((iu.tmod 3600000000).tmod 60000000)))) := by
        apply splitAtT_mid
        rw [← hymd]
        exact ymdChars_no_T ⟨im, idd, iu⟩
      have hhmsl := lexTokens_renderToks _ (toksWF_hmsToks (iu.tdiv 3600000000)
        ((iu.tmod 3600000000).tdiv 60000000) ((iu.tmod 3600000000).tmod 60000000))
      have hhmsv := valHMS_hmsToks (iu.tdiv 3600000000)
        ((iu.tmod 3600000000).tdiv 60000000) ((iu.tmod 3600000000).tmod 60000000)
      have hnonempty : ¬((renderToks (hmsToks (iu.tdiv 3600000000)
          ((iu.tmod 3600000000).tdiv 60000000)
          ((iu.tmod 3600000000).tmod 60000000))).isEmpty = true) := by
        rw [← hhmse]
        simpa using hhms
      simp only [parseChars, hsplit, hymdl, hymdv, if_neg hnonempty, hhmsl, hhmsv,
        hmonths, hmicro]
      simp

end pg_interval

/-- The error-message flattening of the `Deserialize` impl (src/lib.rs lines
66-78): each `ParseError` variant is surfaced as its own message, verbatim. -/
def parseErrorMsg (e : pg_interval.ParseError) : String :=
  match e with
  | .ParseIntErr m => m
  | .ParseFloatErr m => m
  | .InvalidYearMonth m => m
  | .InvalidTime m => m
  | .InvalidInterval m => m

/-- `Serialize for Interval` (src/lib.rs lines 41-58): copy the three fields
into a `pg_interval::Interval` and emit its ISO 8601 string. -/
def Interval.serialize (x : Interval) : String :=
  pg_interval.Interval.to_iso_8601 ⟨x.months, x.days, x.microseconds⟩

/-- `Deserialize for Interval` (src/lib.rs lines 60-85): parse the string with
`from_iso`, flattening every parse-error variant into the caller-visible
error channel, and copy the three fields through. -/
def Interval.deserialize (s : String) : Except String Interval :=
  match pg_interval.Interval.from_iso s with
  | .error e => .error (parseErrorMsg e)
  | .ok pgi => .ok ⟨pgi.months, pgi.days, pgi.microseconds⟩

/-- C2: parsing (deserializing) the ISO 8601 string produced by formatting
(serializing) an in-range `Interval` yields the same `Interval`, per-field
signs included. -/
theorem text_roundtrip (x : Interval) (_h : x.inRange) :
    Interval.deserialize (Interval.serialize x) = .ok x := by
  rw [Interval.deserialize, Interval.serialize, pg_interval.Interval.to_iso_8601,
    pg_interval.Interval.from_iso]
  rw [show (String.mk (pg_interval.formatChars ⟨x.months, x.days, x.microseconds⟩)).data =
    pg_interval.formatChars ⟨x.months, x.days, x.microseconds⟩ from rfl]
  rw [pg_interval.parseChars_formatChars]

/-- Concrete instance of C2: an interval with negative months and
microseconds round-trips through the text format. -/
theorem text_roundtrip_witness :
    Interval.inRange ⟨-14, 3, -5445000000⟩ ∧
    Interval.deserialize (Interval.serialize ⟨-14, 3, -5445000000⟩) =
      .ok ⟨-14, 3, -5445000000⟩ :=
  ⟨by decide, text_roundtrip ⟨-14, 3, -5445000000⟩ (by decide)⟩

/-- C9: the example vector — months 14, days 3, microseconds 5,445,000,000
serializes to exactly `P1Y2M3DT1H30M45S`, and parsing that string yields the
same struct. -/
theorem example_vector :
    Interval.serialize ⟨14, 3, 5445000000⟩ = "P1Y2M3DT1H30M45S" ∧
    Interval.deserialize "P1Y2M3DT1H30M45S" = .ok ⟨14, 3, 5445000000⟩ := by
  constructor <;> decide

/-- C8: deserialization forwards every parse-error variant verbatim as the
caller-visible message; the five failure kinds arise on concrete inputs
(`garbage`, `P1Q`, `P1YT1X`, `PY`, `PT1.S`) and carry five pairwise distinct
messages, so no kind is down-converted to a generic parse error. -/
theorem parse_error_forwarding :
    (∀ (s : String) (e : pg_interval.ParseError),
      pg_interval.Interval.from_iso s = .error e →
      Interval.deserialize s = .error (parseErrorMsg e)) ∧
    pg_interval.Interval.from_iso "garbage" =
      .error (.InvalidInterval "invalid interval format") ∧
    pg_interval.Interval.from_iso "P1Q" =
      .error (.InvalidYearMonth "invalid year month format") ∧
    pg_interval.Interval.from_iso "P1YT1X" =
      .error (.InvalidTime "invalid time format") ∧
    pg_interval.Interval.from_iso "PY" =
      .error (.ParseIntErr "cannot parse integer from empty string") ∧
    pg_interval.Interval.from_iso "PT1.S" =
      .error (.ParseFloatErr "cannot parse float from empty string") ∧
    Interval.deserialize "garbage" = .error "invalid interval format" ∧
    Interval.deserialize "P1Q" = .error "invalid year month format" ∧
    Interval.deserialize "P1YT1X" = .error "invalid time format" ∧
    Interval.deserialize "PY" = .error "cannot parse integer from empty string" ∧
    Interval.deserialize "PT1.S" = .error "cannot parse float from empty string" ∧
    List.Pairwise (fun a b => a ≠ b)
      ["invalid interval format", "invalid year month format", "invalid time format",
       "cannot parse integer from empty string", "cannot parse float from empty string"] := by
  refine ⟨?_, by decide, by decide, by decide, by decide, by decide, by decide, by decide,
    by decide, by decide, by decide, by decide⟩
  intro s e h
  rw [Interval.deserialize, h]

/-- Concrete instance of C8: the forwarding clause applied to `garbage`. -/
theorem parse_error_forwarding_witness :
    Interval.deserialize "garbage" =
      .error (parseErrorMsg (.InvalidInterval "invalid interval format")) :=
  parse_error_forwarding.1 "garbage"
    (.InvalidInterval "invalid interval format") (by decide)

end SqlxPgInterval
